import Mathlib

/-!
Verification of the rally-simulation engine (lab3.cpp): court grid,
players, the stateful targeting strategy, the rally engine and the
game-level scoring loop, shallowly embedded over ℝ for the double-valued
geometry and ℤ for the integer counters.  Randomness is embedded by
passing the values drawn from the generator as explicit inputs
(a uniform draw on an interval [0, b) is represented as u * b for a
unit draw u ∈ [0, 1]).
-/

namespace Lab3

/-- Mirrors `struct Position { double x, y; }`. -/
@[ext]
structure Position where
  x : ℝ
  y : ℝ

/-- Mirrors `struct Square { Position center; double size; int row, col; }`. -/
structure Square where
  center : Position
  size : ℝ
  row : ℤ
  col : ℤ

instance : Inhabited Square := ⟨⟨⟨0, 0⟩, 0, 0, 0⟩⟩

/-- Mirrors `std::hypot(dx, dy)`. -/
noncomputable def hypot (dx dy : ℝ) : ℝ := Real.sqrt (dx ^ 2 + dy ^ 2)

/-- Euclidean distance between two positions, `hypot(q.x - p.x, q.y - p.y)`. -/
noncomputable def pdist (p q : Position) : ℝ := hypot (q.x - p.x) (q.y - p.y)

/-- Mirrors `Court::generateSquares`: double loop pushing the cell for
row `i`, column `j` with center `((i+0.5)*width/n, (j+0.5)*height/n)` and
`size = squareSizeX = width/n`. -/
noncomputable def generateSquares (width height : ℝ) (n : ℕ) : List Square :=
  (List.range n).flatMap (fun (i : ℕ) =>
    (List.range n).map (fun (j : ℕ) =>
      { center := ⟨((i : ℝ) + 0.5) * (width / n), ((j : ℝ) + 0.5) * (height / n)⟩,
        size := width / n, row := (i : ℤ), col := (j : ℤ) }))

/-- Mirrors `class Court`. -/
structure Court where
  width : ℝ
  height : ℝ
  n : ℕ
  squares : List Square

/-- Mirrors the `Court` constructor, which calls `generateSquares()`. -/
noncomputable def Court.make (width height : ℝ) (n : ℕ) : Court :=
  ⟨width, height, n, generateSquares width height n⟩

/-- Mirrors `Court::getSquare`: `squares[row * n + col]` (caller guarantees
the index is in range; out of range reads the default square here). -/
def Court.getSquare (c : Court) (row col : ℤ) : Square :=
  c.squares.getD (row * c.n + col).toNat default

/-- Mirrors `Court::isOut`. -/
def Court.isOut (c : Court) (p : Position) : Prop :=
  p.x < 0 ∨ p.x > c.width ∨ p.y < 0 ∨ p.y > c.height

/-- Mirrors `class Player` (position, reach radius `r`, speed `l`). -/
structure Player where
  pos : Position
  r : ℝ
  l : ℝ

/-- Mirrors `Player::canHit`: false if `dy < 0`, else `hypot(dx, dy) <= r`. -/
def Player.canHit (pl : Player) (ball : Position) : Prop :=
  ¬ (ball.y - pl.pos.y < 0) ∧ hypot (ball.x - pl.pos.x) (ball.y - pl.pos.y) ≤ pl.r

/-- Mirrors `Player::moveTo`: snap to the target when within speed `l`,
otherwise advance `l` units along the straight line toward the target. -/
noncomputable def Player.moveTo (pl : Player) (target : Position) : Player :=
  let dx := target.x - pl.pos.x
  let dy := target.y - pl.pos.y
  let dist := hypot dx dy
  if dist ≤ pl.l then { pl with pos := target }
  else { pl with pos := ⟨pl.pos.x + dx / dist * pl.l, pl.pos.y + dy / dist * pl.l⟩ }

/-- Mirrors `class Strategy` (error probability, grid resolution, and the
mutable trap state). -/
structure Strategy where
  errorProb : ℝ
  n : ℕ
  trapMode : Bool
  lastServeTarget : Position
  hasLastTarget : Bool

/-- Mirrors the `Strategy(int n)` constructor: `errorProb = 0.05`,
`trapMode = false`, `hasLastTarget = false` (`lastServeTarget` is left
uninitialized in the C++; it is given an arbitrary value here). -/
noncomputable def Strategy.init (n : ℕ) : Strategy :=
  ⟨0.05, n, false, ⟨0, 0⟩, false⟩

/-- The running-maximum fold shared by the `maxDist` loop and the
`bestScore` loop of `Strategy::chooseSquare`: strict improvement
(`f sq > cur`) replaces the running best, so ties keep the earlier square. -/
noncomputable def pickMax (f : Square → ℝ) : List Square → ℝ → Square → Square
  | [], _, best => best
  | sq :: rest, cur, best =>
    if cur < f sq then pickMax f rest (f sq) sq
    else pickMax f rest cur best

/-- The running-minimum fold of the `minBotDist` loop of
`Strategy::chooseSquare`: strict improvement (`f sq < cur`) replaces the
running best. -/
noncomputable def pickMin (f : Square → ℝ) : List Square → ℝ → Square → Square
  | [], _, best => best
  | sq :: rest, cur, best =>
    if f sq < cur then pickMin f rest (f sq) sq
    else pickMin f rest cur best

/-- Distance from a square's center to a position, as computed inside the
loops of `Strategy::chooseSquare`. -/
noncomputable def distTo (p : Position) (sq : Square) : ℝ :=
  hypot (sq.center.x - p.x) (sq.center.y - p.y)

/-- The heuristic score of `Strategy::chooseSquare`:
`botDist * min(1.0, agent.r / (agentDist + 0.1))`. -/
noncomputable def scoreOf (agent bot : Player) (sq : Square) : ℝ :=
  distTo bot.pos sq * min 1 (agent.r / (distTo agent.pos sq + 0.1))

/-- The `bestScore` loop of `Strategy::chooseSquare`:
`bestScore = -1.0`, `bestSquare = court.squares[0]`. -/
noncomputable def heuristicChoice (agent bot : Player) (c : Court) : Square :=
  pickMax (scoreOf agent bot) c.squares (-1) c.squares.headI

/-- The `minBotDist` loop of the serve branch of `Strategy::chooseSquare`:
`minBotDist = 1e9`, `nearSquare = bestSquare` (the heuristic result). -/
noncomputable def serveSquare (agent bot : Player) (c : Court) : Square :=
  pickMin (distTo bot.pos) c.squares 1000000000 (heuristicChoice agent bot c)

/-- The sentinel square `{ {-1.0, -1.0}, 0.0, -1, -1 }` returned when the
error perturbation falls off the grid. -/
noncomputable def outSquare : Square := ⟨⟨-1, -1⟩, 0, -1, -1⟩

/-- The row offsets `dRow[] = { -1, 0, 1, 0 }`. -/
def dRow : Fin 4 → ℤ := ![-1, 0, 1, 0]

/-- The column offsets `dCol[] = { 0, -1, 0, 1 }`. -/
def dCol : Fin 4 → ℤ := ![0, -1, 0, 1]

/-- Mirrors `Strategy::chooseSquare`.  The two generator draws it can make
are passed explicitly: `err` is the value of `errorDist(rng)` (uniform on
[0,1)) and `dir` the value of `dir(rng)` (uniform on {0,1,2,3}); they are
consulted only on the non-serve error-injection path, exactly as in the
source.  Returns the chosen square together with the updated strategy
state. -/
noncomputable def Strategy.chooseSquare (st : Strategy) (agent bot : Player) (c : Court)
    (err : ℝ) (dir : Fin 4) (isServe : Bool) : Square × Strategy :=
  if st.trapMode && st.hasLastTarget then
    (pickMax (distTo st.lastServeTarget) c.squares (-1) c.squares.headI,
     { st with trapMode := false, hasLastTarget := false })
  else
    if isServe then
      (serveSquare agent bot c,
       { st with lastServeTarget := (serveSquare agent bot c).center,
                 hasLastTarget := true, trapMode := true })
    else
      let bestSquare := heuristicChoice agent bot c
      if err < st.errorProb then
        let newRow := bestSquare.row + dRow dir
        let newCol := bestSquare.col + dCol dir
        if 0 ≤ newRow ∧ newRow < (st.n : ℤ) ∧ 0 ≤ newCol ∧ newCol < (st.n : ℤ) then
          (c.getSquare newRow newCol, st)
        else
          (outSquare, st)
      else (bestSquare, st)

/-- The game-winning test of `Match::playGame` for the agent:
`agentPoints >= 4 && agentPoints - botPoints >= 2`. -/
def winA (a b : ℤ) : Prop := 4 ≤ a ∧ 2 ≤ a - b

/-- The game-winning test of `Match::playGame` for the bot:
`botPoints >= 4 && botPoints - agentPoints >= 2`. -/
def winB (a b : ℤ) : Prop := 4 ≤ b ∧ 2 ≤ b - a

instance (a b : ℤ) : Decidable (winA a b) :=
  inferInstanceAs (Decidable (4 ≤ a ∧ 2 ≤ a - b))

instance (a b : ℤ) : Decidable (winB a b) :=
  inferInstanceAs (Decidable (4 ≤ b ∧ 2 ≤ b - a))

/-- The scoring loop of `Match::playGame`, with the outcomes of the
successive `simulatePoint` calls abstracted as the input list (`true` =
agent won the point).  Each iteration increments one side's points and
then tests the two win conditions, agent first; `none` means the supplied
outcome list was exhausted before the game was decided.  Returns the
winner together with the final point score. -/
def playGameAux : List Bool → ℤ → ℤ → Option (Bool × ℤ × ℤ)
  | [], _, _ => none
  | o :: rest, a, b =>
    let a1 := if o then a + 1 else a
    let b1 := if o then b else b + 1
    if winA a1 b1 then some (true, a1, b1)
    else if winB a1 b1 then some (false, a1, b1)
    else playGameAux rest a1 b1

/-- `Match::playGame` starts from `agentPoints = 0, botPoints = 0`. -/
def playGame (outs : List Bool) : Option (Bool × ℤ × ℤ) := playGameAux outs 0 0

/-- The defender's return draw of `Match::simulatePoint`:
`{ xDist(rng), yDist(rng) }` with `xDist` uniform on [0, width] and
`yDist` uniform on [0, height/2], represented as unit draws `u, v`
scaled by the interval lengths. -/
noncomputable def returnBallSample (c : Court) (u v : ℝ) : Position :=
  ⟨u * c.width, v * (c.height / 2)⟩

/-- The state mutated by `Match::simulatePoint`: the two players, the
court and the strategy, as held by `class Match`. -/
structure MatchState where
  agent : Player
  bot : Player
  court : Court
  strategy : Strategy

/-- Mirrors the `Match` constructor: agent at (10, 0), bot at (10, 10),
court 20 × 10 with resolution `n`, fresh strategy. -/
noncomputable def MatchState.make (rAgent lAgent rBot lBot : ℝ) (n : ℕ) : MatchState :=
  ⟨⟨⟨10, 0⟩, rAgent, lAgent⟩, ⟨⟨10, 10⟩, rBot, lBot⟩, Court.make 20 10 n, Strategy.init n⟩

/-- The per-call draws of `Match::simulatePoint`: the two strategy draws,
the two placement-noise draws (values of `noise(rng)`, uniform on
[-size/2, size/2]), and the unit draws for the defender's return. -/
structure Draws where
  err : ℝ
  dir : Fin 4
  noiseX : ℝ
  noiseY : ℝ
  retU : ℝ
  retV : ℝ

open Classical in
/-- Mirrors `Match::simulatePoint` (`true` = agent wins the point), with
the random draws of call `k` supplied as `draws k` and the unbounded
recursion cut off by fuel (`none` = fuel exhausted). -/
noncomputable def simulatePoint (draws : ℕ → Draws) : ℕ → MatchState → Bool → Option (Bool × MatchState)
  | 0, _, _ => none
  | fuel + 1, st, serve =>
    let d := draws 0
    let res := st.strategy.chooseSquare st.agent st.bot st.court d.err d.dir serve
    let targetSquare := res.1
    let st1 : MatchState := { st with strategy := res.2 }
    if targetSquare.row = -1 then some (false, st1)
    else
      let ball : Position := ⟨targetSquare.center.x + d.noiseX, targetSquare.center.y + d.noiseY⟩
      if st1.court.isOut ball then some (false, st1)
      else
        let bot2 := st1.bot.moveTo ball
        let st2 : MatchState := { st1 with bot := bot2 }
        if ¬ bot2.canHit ball then some (true, st2)
        else
          let returnBall := returnBallSample st2.court d.retU d.retV
          if st2.court.isOut returnBall then some (true, st2)
          else
            let agent2 := st2.agent.moveTo returnBall
            let st3 : MatchState := { st2 with agent := agent2 }
            if ¬ agent2.canHit returnBall then some (false, st3)
            else simulatePoint (fun k => draws (k + 1)) fuel st3 false

open Classical in
/-- The rally engine with the return-out branch
(`if (court.isOut(returnBall)) return true;`) removed; used to state that
this branch is unreachable for in-range return draws. -/
noncomputable def simulatePointNoRetOut (draws : ℕ → Draws) : ℕ → MatchState → Bool → Option (Bool × MatchState)
  | 0, _, _ => none
  | fuel + 1, st, serve =>
    let d := draws 0
    let res := st.strategy.chooseSquare st.agent st.bot st.court d.err d.dir serve
    let targetSquare := res.1
    let st1 : MatchState := { st with strategy := res.2 }
    if targetSquare.row = -1 then some (false, st1)
    else
      let ball : Position := ⟨targetSquare.center.x + d.noiseX, targetSquare.center.y + d.noiseY⟩
      if st1.court.isOut ball then some (false, st1)
      else
        let bot2 := st1.bot.moveTo ball
        let st2 : MatchState := { st1 with bot := bot2 }
        if ¬ bot2.canHit ball then some (true, st2)
        else
          let returnBall := returnBallSample st2.court d.retU d.retV
          let agent2 := st2.agent.moveTo returnBall
          let st3 : MatchState := { st2 with agent := agent2 }
          if ¬ agent2.canHit returnBall then some (false, st3)
          else simulatePointNoRetOut (fun k => draws (k + 1)) fuel st3 false

/-- A draw record whose return-sample components are valid unit draws. -/
def Draws.validRet (d : Draws) : Prop :=
  0 ≤ d.retU ∧ d.retU ≤ 1 ∧ 0 ≤ d.retV ∧ d.retV ≤ 1

/-! ### Helper lemmas -/

theorem hypot_nonneg (a b : ℝ) : 0 ≤ hypot a b := Real.sqrt_nonneg _

theorem distTo_nonneg (p : Position) (sq : Square) : 0 ≤ distTo p sq := Real.sqrt_nonneg _

theorem hypot_zero : hypot 0 0 = 0 := by simp [hypot]

theorem hypot_abs_left (a : ℝ) : hypot a 0 = |a| := by
  simp [hypot, Real.sqrt_sq_eq_abs]

theorem hypot_smul (c a b : ℝ) (hc : 0 ≤ c) : hypot (c * a) (c * b) = c * hypot a b := by
  unfold hypot
  rw [show (c * a) ^ 2 + (c * b) ^ 2 = c ^ 2 * (a ^ 2 + b ^ 2) by ring,
    Real.sqrt_mul (sq_nonneg c), Real.sqrt_sq hc]

theorem scoreOf_nonneg (agent bot : Player) (sq : Square) (hr : 0 ≤ agent.r) :
    0 ≤ scoreOf agent bot sq := by
  unfold scoreOf
  refine mul_nonneg (distTo_nonneg _ _) (le_min zero_le_one (div_nonneg hr ?_))
  have := distTo_nonneg agent.pos sq
  linarith

theorem pickMax_mem (f : Square → ℝ) :
    ∀ (l : List Square) (cur : ℝ) (best : Square), pickMax f l cur best ∈ best :: l := by
  intro l
  induction l with
  | nil => intro cur best; simp [pickMax]
  | cons sq rest ih =>
    intro cur best
    rw [pickMax]
    by_cases h : cur < f sq
    · rw [if_pos h]
      rcases List.mem_cons.mp (ih (f sq) sq) with h1 | h1
      · exact List.mem_cons_of_mem _ (by rw [h1]; exact List.mem_cons_self _ _)
      · exact List.mem_cons_of_mem _ (List.mem_cons_of_mem _ h1)
    · rw [if_neg h]
      rcases List.mem_cons.mp (ih cur best) with h1 | h1
      · rw [h1]; exact List.mem_cons_self _ _
      · exact List.mem_cons_of_mem _ (List.mem_cons_of_mem _ h1)

theorem pickMin_mem (f : Square → ℝ) :
    ∀ (l : List Square) (cur : ℝ) (best : Square), pickMin f l cur best ∈ best :: l := by
  intro l
  induction l with
  | nil => intro cur best; simp [pickMin]
  | cons sq rest ih =>
    intro cur best
    rw [pickMin]
    by_cases h : f sq < cur
    · rw [if_pos h]
      rcases List.mem_cons.mp (ih (f sq) sq) with h1 | h1
      · exact List.mem_cons_of_mem _ (by rw [h1]; exact List.mem_cons_self _ _)
      · exact List.mem_cons_of_mem _ (List.mem_cons_of_mem _ h1)
    · rw [if_neg h]
      rcases List.mem_cons.mp (ih cur best) with h1 | h1
      · rw [h1]; exact List.mem_cons_self _ _
      · exact List.mem_cons_of_mem _ (List.mem_cons_of_mem _ h1)

theorem pickMax_spec (f : Square → ℝ) :
    ∀ (l : List Square) (cur : ℝ) (best : Square),
      (pickMax f l cur best = best ∧ ∀ sq ∈ l, f sq ≤ cur)
    ∨ (∃ l1 l2, l = l1 ++ pickMax f l cur best :: l2
        ∧ cur < f (pickMax f l cur best)
        ∧ (∀ sq ∈ l1, f sq < f (pickMax f l cur best))
        ∧ (∀ sq ∈ l2, f sq ≤ f (pickMax f l cur best))) := by
  intro l
  induction l with
  | nil => intro cur best; left; exact ⟨rfl, by simp⟩
  | cons sq rest ih =>
    intro cur best
    rw [pickMax]
    by_cases h : cur < f sq
    · rw [if_pos h]
      rcases ih (f sq) sq with ⟨heq, hall⟩ | ⟨l1, l2, hsplit, hlt, hl1, hl2⟩
      · right
        refine ⟨[], rest, by simp [heq], by rw [heq]; exact h, by simp, ?_⟩
        intro x hx; rw [heq]; exact hall x hx
      · right
        refine ⟨sq :: l1, l2, by simp only [List.cons_append]; exact congrArg (sq :: .) hsplit, lt_trans h hlt, ?_, hl2⟩
        intro x hx
        rcases List.mem_cons.mp hx with rfl | hx
        · exact hlt
        · exact hl1 x hx
    · rw [if_neg h]
      rcases ih cur best with ⟨heq, hall⟩ | ⟨l1, l2, hsplit, hlt, hl1, hl2⟩
      · left
        refine ⟨heq, ?_⟩
        intro x hx
        rcases List.mem_cons.mp hx with rfl | hx
        · exact not_lt.mp h
        · exact hall x hx
      · right
        refine ⟨sq :: l1, l2, by simp only [List.cons_append]; exact congrArg (sq :: .) hsplit, hlt, ?_, hl2⟩
        intro x hx
        rcases List.mem_cons.mp hx with rfl | hx
        · exact lt_of_le_of_lt (not_lt.mp h) hlt
        · exact hl1 x hx

theorem pickMin_spec (f : Square → ℝ) :
    ∀ (l : List Square) (cur : ℝ) (best : Square),
      (pickMin f l cur best = best ∧ ∀ sq ∈ l, cur ≤ f sq)
    ∨ (∃ l1 l2, l = l1 ++ pickMin f l cur best :: l2
        ∧ f (pickMin f l cur best) < cur
        ∧ (∀ sq ∈ l1, f (pickMin f l cur best) < f sq)
        ∧ (∀ sq ∈ l2, f (pickMin f l cur best) ≤ f sq)) := by
  intro l
  induction l with
  | nil => intro cur best; left; exact ⟨rfl, by simp⟩
  | cons sq rest ih =>
    intro cur best
    rw [pickMin]
    by_cases h : f sq < cur
    · rw [if_pos h]
      rcases ih (f sq) sq with ⟨heq, hall⟩ | ⟨l1, l2, hsplit, hlt, hl1, hl2⟩
      · right
        refine ⟨[], rest, by simp [heq], by rw [heq]; exact h, by simp, ?_⟩
        intro x hx; rw [heq]; exact hall x hx
      · right
        refine ⟨sq :: l1, l2, by simp only [List.cons_append]; exact congrArg (sq :: .) hsplit, lt_trans hlt h, ?_, hl2⟩
        intro x hx
        rcases List.mem_cons.mp hx with rfl | hx
        · exact hlt
        · exact hl1 x hx
    · rw [if_neg h]
      rcases ih cur best with ⟨heq, hall⟩ | ⟨l1, l2, hsplit, hlt, hl1, hl2⟩
      · left
        refine ⟨heq, ?_⟩
        intro x hx
        rcases List.mem_cons.mp hx with rfl | hx
        · exact not_lt.mp h
        · exact hall x hx
      · right
        refine ⟨sq :: l1, l2, by simp only [List.cons_append]; exact congrArg (sq :: .) hsplit, hlt, ?_, hl2⟩
        intro x hx
        rcases List.mem_cons.mp hx with rfl | hx
        · exact lt_of_lt_of_le hlt (not_lt.mp h)
        · exact hl1 x hx

theorem pickMax_argmax (f : Square → ℝ) (l : List Square) (cur : ℝ) (best : Square)
    (hex : ∃ sq ∈ l, cur < f sq) :
    pickMax f l cur best ∈ l
    ∧ (∀ sq ∈ l, f sq ≤ f (pickMax f l cur best))
    ∧ ∃ l1 l2, l = l1 ++ pickMax f l cur best :: l2
        ∧ ∀ sq ∈ l1, f sq < f (pickMax f l cur best) := by
  rcases pickMax_spec f l cur best with ⟨_, hall⟩ | ⟨l1, l2, hsplit, _, hl1, hl2⟩
  · obtain ⟨sq0, hmem, hlt⟩ := hex
    exact absurd (hall sq0 hmem) (not_le.mpr hlt)
  · refine ⟨?_, ?_, l1, l2, hsplit, hl1⟩
    · have hm : pickMax f l cur best ∈ l1 ++ pickMax f l cur best :: l2 :=
        List.mem_append_right _ (List.mem_cons_self _ _)
      rwa [← hsplit] at hm
    · intro x hx
      rw [hsplit] at hx
      rcases List.mem_append.mp hx with hx | hx
      · exact le_of_lt (hl1 x hx)
      · rcases List.mem_cons.mp hx with rfl | hx
        · exact le_refl _
        · exact hl2 x hx

theorem pickMin_argmin (f : Square → ℝ) (l : List Square) (cur : ℝ) (best : Square)
    (hex : ∃ sq ∈ l, f sq < cur) :
    pickMin f l cur best ∈ l
    ∧ (∀ sq ∈ l, f (pickMin f l cur best) ≤ f sq)
    ∧ ∃ l1 l2, l = l1 ++ pickMin f l cur best :: l2
        ∧ ∀ sq ∈ l1, f (pickMin f l cur best) < f sq := by
  rcases pickMin_spec f l cur best with ⟨_, hall⟩ | ⟨l1, l2, hsplit, _, hl1, hl2⟩
  · obtain ⟨sq0, hmem, hlt⟩ := hex
    exact absurd (hall sq0 hmem) (not_le.mpr hlt)
  · refine ⟨?_, ?_, l1, l2, hsplit, hl1⟩
    · have hm : pickMin f l cur best ∈ l1 ++ pickMin f l cur best :: l2 :=
        List.mem_append_right _ (List.mem_cons_self _ _)
      rwa [← hsplit] at hm
    · intro x hx
      rw [hsplit] at hx
      rcases List.mem_append.mp hx with hx | hx
      · exact le_of_lt (hl1 x hx)
      · rcases List.mem_cons.mp hx with rfl | hx
        · exact le_refl _
        · exact hl2 x hx

theorem chooseSquare_trap_eq (st : Strategy) (agent bot : Player) (c : Court)
    (err : ℝ) (dir : Fin 4) (isServe : Bool)
    (h : (st.trapMode && st.hasLastTarget) = true) :
    st.chooseSquare agent bot c err dir isServe
      = (pickMax (distTo st.lastServeTarget) c.squares (-1) c.squares.headI,
         { st with trapMode := false, hasLastTarget := false }) := by
  unfold Strategy.chooseSquare
  rw [if_pos h]

theorem chooseSquare_serve_eq (st : Strategy) (agent bot : Player) (c : Court)
    (err : ℝ) (dir : Fin 4)
    (h : ¬ (st.trapMode && st.hasLastTarget) = true) :
    st.chooseSquare agent bot c err dir true
      = (serveSquare agent bot c,
         { st with lastServeTarget := (serveSquare agent bot c).center,
                   hasLastTarget := true, trapMode := true }) := by
  unfold Strategy.chooseSquare
  rw [if_neg h, if_pos rfl]

theorem chooseSquare_noerr_eq (st : Strategy) (agent bot : Player) (c : Court)
    (err : ℝ) (dir : Fin 4)
    (h : ¬ (st.trapMode && st.hasLastTarget) = true) (he : ¬ err < st.errorProb) :
    st.chooseSquare agent bot c err dir false = (heuristicChoice agent bot c, st) := by
  unfold Strategy.chooseSquare
  rw [if_neg h]
  simp only [Bool.false_eq_true, if_false]
  rw [if_neg he]

theorem chooseSquare_err_eq (st : Strategy) (agent bot : Player) (c : Court)
    (err : ℝ) (dir : Fin 4)
    (h : ¬ (st.trapMode && st.hasLastTarget) = true) (he : err < st.errorProb) :
    st.chooseSquare agent bot c err dir false
      = (if 0 ≤ (heuristicChoice agent bot c).row + dRow dir
            ∧ (heuristicChoice agent bot c).row + dRow dir < (st.n : ℤ)
            ∧ 0 ≤ (heuristicChoice agent bot c).col + dCol dir
            ∧ (heuristicChoice agent bot c).col + dCol dir < (st.n : ℤ) then
           (c.getSquare ((heuristicChoice agent bot c).row + dRow dir)
             ((heuristicChoice agent bot c).col + dCol dir), st)
         else (outSquare, st)) := by
  unfold Strategy.chooseSquare
  rw [if_neg h]
  simp only [Bool.false_eq_true, if_false]
  rw [if_pos he]

/-- C5: the receiving side's `canHit` is true exactly when the target is
not strictly behind the player (relative y ≥ 0) and the Euclidean distance
to the target is at most the reach radius `r`; in particular every target
with negative relative y is unreachable regardless of distance. -/
theorem canHit_characterization (pl : Player) (ball : Position) :
    (pl.canHit ball ↔
      0 ≤ ball.y - pl.pos.y
        ∧ hypot (ball.x - pl.pos.x) (ball.y - pl.pos.y) ≤ pl.r)
    ∧ (ball.y - pl.pos.y < 0 → ¬ pl.canHit ball) := by
  constructor
  · unfold Player.canHit
    rw [not_lt]
  · intro h hc
    exact hc.1 h

theorem canHit_characterization_witness :
    ¬ Player.canHit ⟨⟨0, 0⟩, 1, 1⟩ ⟨0, -1⟩ :=
  (canHit_characterization ⟨⟨0, 0⟩, 1, 1⟩ ⟨0, -1⟩).2 (by norm_num)

/-- C9: the trap flag and the has-remembered-target flag start out both
false, their equality is preserved by every `chooseSquare` call, every
trap-consumption call clears both, and every serve call made with the trap
not armed sets both. -/
theorem trap_state_invariant (n : ℕ) :
    (Strategy.init n).trapMode = false ∧ (Strategy.init n).hasLastTarget = false
    ∧ ∀ (s : Strategy) (a b : Player) (c : Court) (err : ℝ) (dir : Fin 4) (serve : Bool),
        (s.trapMode = s.hasLastTarget →
          (s.chooseSquare a b c err dir serve).2.trapMode
            = (s.chooseSquare a b c err dir serve).2.hasLastTarget)
        ∧ ((s.trapMode && s.hasLastTarget) = true →
            (s.chooseSquare a b c err dir serve).2.trapMode = false
            ∧ (s.chooseSquare a b c err dir serve).2.hasLastTarget = false)
        ∧ (¬ (s.trapMode && s.hasLastTarget) = true → serve = true →
            (s.chooseSquare a b c err dir serve).2.trapMode = true
            ∧ (s.chooseSquare a b c err dir serve).2.hasLastTarget = true) := by
  refine ⟨rfl, rfl, fun s a b c err dir serve => ?_⟩
  by_cases htrap : (s.trapMode && s.hasLastTarget) = true
  · rw [chooseSquare_trap_eq s a b c err dir serve htrap]
    exact ⟨fun _ => rfl, fun _ => ⟨rfl, rfl⟩, fun hn _ => absurd htrap hn⟩
  · refine ⟨?_, fun ht => absurd ht htrap, ?_⟩
    · intro hpres
      cases serve with
      | true =>
        rw [chooseSquare_serve_eq s a b c err dir htrap]
      | false =>
        have hstate : (s.chooseSquare a b c err dir false).2 = s := by
          by_cases he : err < s.errorProb
          · rw [chooseSquare_err_eq s a b c err dir htrap he]
            split_ifs <;> rfl
          · rw [chooseSquare_noerr_eq s a b c err dir htrap he]
        rw [hstate]
        exact hpres
    · intro _ hserve
      subst hserve
      rw [chooseSquare_serve_eq s a b c err dir htrap]
      exact ⟨rfl, rfl⟩

theorem trap_state_invariant_witness :
    ((Strategy.init 1).chooseSquare ⟨⟨10, 0⟩, 1, 1⟩ ⟨⟨10, 10⟩, 2, 3⟩ (Court.make 20 10 1)
        1 0 true).2.trapMode = true
    ∧ ((Strategy.init 1).chooseSquare ⟨⟨10, 0⟩, 1, 1⟩ ⟨⟨10, 10⟩, 2, 3⟩ (Court.make 20 10 1)
        1 0 true).2.hasLastTarget = true :=
  ((trap_state_invariant 1).2.2 (Strategy.init 1) ⟨⟨10, 0⟩, 1, 1⟩ ⟨⟨10, 10⟩, 2, 3⟩
    (Court.make 20 10 1) 1 0 true).2.2 (by simp [Strategy.init]) rfl

theorem generateSquares_length (w h : ℝ) (n : ℕ) :
    (generateSquares w h n).length = n * n := by
  unfold generateSquares
  simp [List.length_flatMap, Function.comp_def, List.length_map, List.length_range]

theorem mem_generateSquares {w h : ℝ} {n : ℕ} {sq : Square} :
    sq ∈ generateSquares w h n ↔
      ∃ i < n, ∃ j < n,
        sq = ⟨⟨((i : ℝ) + 0.5) * (w / n), ((j : ℝ) + 0.5) * (h / n)⟩,
              w / n, (i : ℤ), (j : ℤ)⟩ := by
  unfold generateSquares
  simp only [List.mem_flatMap, List.mem_map, List.mem_range]
  constructor
  · rintro ⟨i, hi, j, hj, rfl⟩
    exact ⟨i, hi, j, hj, rfl⟩
  · rintro ⟨i, hi, j, hj, rfl⟩
    exact ⟨i, hi, j, hj, rfl⟩

theorem courtMake_squares_ne_nil (w h : ℝ) {n : ℕ} (hn : 1 ≤ n) :
    (Court.make w h n).squares ≠ [] := by
  intro hnil
  have hlen : (generateSquares w h n).length = 0 := by
    rw [show generateSquares w h n = (Court.make w h n).squares from rfl, hnil]
    rfl
  rw [generateSquares_length] at hlen
  rcases Nat.mul_eq_zero.mp hlen with h0 | h0 <;> omega

/-- C1: a serve call on a strategy whose trap is not armed arms the trap
and remembers the center of the returned serve-target square, and the
immediately following call on the same strategy — for any attacker,
defender, court and serve flag — returns a square of that court whose
center is farthest from the remembered target and clears both the trap
flag and the has-remembered-target flag. -/
theorem serve_arms_trap_next_call_farthest (s : Strategy) (a b : Player) (c : Court)
    (err : ℝ) (dir : Fin 4)
    (hs : ¬ (s.trapMode && s.hasLastTarget) = true) :
    (s.chooseSquare a b c err dir true).2.trapMode = true
    ∧ (s.chooseSquare a b c err dir true).2.hasLastTarget = true
    ∧ (s.chooseSquare a b c err dir true).2.lastServeTarget
        = (s.chooseSquare a b c err dir true).1.center
    ∧ ∀ (a2 b2 : Player) (c2 : Court) (err2 : ℝ) (dir2 : Fin 4) (serve2 : Bool),
        c2.squares ≠ [] →
        ((s.chooseSquare a b c err dir true).2.chooseSquare a2 b2 c2 err2 dir2 serve2).2.trapMode
            = false
        ∧ ((s.chooseSquare a b c err dir true).2.chooseSquare a2 b2 c2 err2 dir2 serve2).2.hasLastTarget
            = false
        ∧ ((s.chooseSquare a b c err dir true).2.chooseSquare a2 b2 c2 err2 dir2 serve2).1
            ∈ c2.squares
        ∧ ∀ sq ∈ c2.squares,
            distTo ((s.chooseSquare a b c err dir true).1.center) sq
              ≤ distTo ((s.chooseSquare a b c err dir true).1.center)
                  (((s.chooseSquare a b c err dir true).2.chooseSquare a2 b2 c2 err2 dir2 serve2).1) := by
  rw [chooseSquare_serve_eq s a b c err dir hs]
  refine ⟨rfl, rfl, rfl, ?_⟩
  intro a2 b2 c2 err2 dir2 serve2 hc2
  dsimp only
  have htr :
      (({ s with
            lastServeTarget := (serveSquare a b c).center,
            hasLastTarget := true,
            trapMode := true } : Strategy).trapMode
        && ({ s with
              lastServeTarget := (serveSquare a b c).center,
              hasLastTarget := true,
              trapMode := true } : Strategy).hasLastTarget) = true := rfl
  rw [chooseSquare_trap_eq _ a2 b2 c2 err2 dir2 serve2 htr]
  have hex : ∃ sq ∈ c2.squares, (-1 : ℝ) < distTo (serveSquare a b c).center sq := by
    obtain ⟨sq0, hsq0⟩ := List.exists_mem_of_ne_nil c2.squares hc2
    exact ⟨sq0, hsq0, lt_of_lt_of_le (by norm_num) (distTo_nonneg _ _)⟩
  obtain ⟨hmem, hmax, _⟩ :=
    pickMax_argmax (distTo (serveSquare a b c).center) c2.squares (-1) c2.squares.headI hex
  exact ⟨rfl, rfl, hmem, hmax⟩

theorem serve_arms_trap_next_call_farthest_witness :
    ((Strategy.init 1).chooseSquare ⟨⟨10, 0⟩, 1, 1⟩ ⟨⟨10, 10⟩, 2, 3⟩ (Court.make 20 10 1)
        1 0 true).2.trapMode = true :=
  (serve_arms_trap_next_call_farthest (Strategy.init 1) ⟨⟨10, 0⟩, 1, 1⟩ ⟨⟨10, 10⟩, 2, 3⟩
    (Court.make 20 10 1) 1 0 (by simp [Strategy.init])).1

/-- C4: with the trap not armed and on the pre-error, pre-serve path,
`chooseSquare` selects the square maximizing
`score = botDist * min(1, r / (agentDist + 0.1))`, keeping the first
square of the row-major list when several tie (the reach radius is
nonnegative, as the data model requires). -/
theorem heuristic_selects_first_argmax (a b : Player) (c : Court)
    (hr : 0 ≤ a.r) (hc : c.squares ≠ []) :
    heuristicChoice a b c ∈ c.squares
    ∧ (∀ sq ∈ c.squares, scoreOf a b sq ≤ scoreOf a b (heuristicChoice a b c))
    ∧ (∃ l1 l2, c.squares = l1 ++ heuristicChoice a b c :: l2
        ∧ ∀ sq ∈ l1, scoreOf a b sq < scoreOf a b (heuristicChoice a b c))
    ∧ ∀ (s : Strategy) (err : ℝ) (dir : Fin 4),
        ¬ (s.trapMode && s.hasLastTarget) = true → ¬ err < s.errorProb →
        (s.chooseSquare a b c err dir false).1 = heuristicChoice a b c := by
  have hex : ∃ sq ∈ c.squares, (-1 : ℝ) < scoreOf a b sq := by
    obtain ⟨sq0, hsq0⟩ := List.exists_mem_of_ne_nil c.squares hc
    exact ⟨sq0, hsq0, lt_of_lt_of_le (by norm_num) (scoreOf_nonneg a b sq0 hr)⟩
  obtain ⟨hmem, hmax, hfirst⟩ :=
    pickMax_argmax (scoreOf a b) c.squares (-1) c.squares.headI hex
  refine ⟨hmem, hmax, hfirst, ?_⟩
  intro s err dir htrap herr
  rw [chooseSquare_noerr_eq s a b c err dir htrap herr]

theorem heuristic_selects_first_argmax_witness :
    heuristicChoice ⟨⟨10, 0⟩, 1, 1⟩ ⟨⟨10, 10⟩, 2, 3⟩ (Court.make 20 10 1)
      ∈ (Court.make 20 10 1).squares :=
  (heuristic_selects_first_argmax ⟨⟨10, 0⟩, 1, 1⟩ ⟨⟨10, 10⟩, 2, 3⟩ (Court.make 20 10 1)
    (by norm_num) (courtMake_squares_ne_nil 20 10 (by norm_num))).1

theorem headI_mem (l : List Square) (hl : l ≠ []) : l.headI ∈ l := by
  cases l with
  | nil => exact absurd rfl hl
  | cons x xs => exact List.mem_cons_self _ _

theorem heuristicChoice_mem (a b : Player) (c : Court) (hc : c.squares ≠ []) :
    heuristicChoice a b c ∈ c.squares := by
  unfold heuristicChoice
  rcases List.mem_cons.mp (pickMax_mem (scoreOf a b) c.squares (-1) c.squares.headI)
    with h | h
  · rw [h]; exact headI_mem _ hc
  · exact h

theorem serveSquare_mem (a b : Player) (c : Court) (hc : c.squares ≠ []) :
    serveSquare a b c ∈ c.squares := by
  unfold serveSquare
  rcases List.mem_cons.mp
      (pickMin_mem (distTo b.pos) c.squares 1000000000 (heuristicChoice a b c))
    with h | h
  · rw [h]; exact heuristicChoice_mem a b c hc
  · exact h

theorem trapSquare_mem (t : Position) (c : Court) (hc : c.squares ≠ []) :
    pickMax (distTo t) c.squares (-1) c.squares.headI ∈ c.squares := by
  rcases List.mem_cons.mp (pickMax_mem (distTo t) c.squares (-1) c.squares.headI)
    with h | h
  · rw [h]; exact headI_mem _ hc
  · exact h

theorem getSquare_row_ne (c : Court) (row col : ℤ)
    (hrows : ∀ sq ∈ c.squares, sq.row ≠ -1) : (c.getSquare row col).row ≠ -1 := by
  unfold Court.getSquare
  rw [List.getD_eq_getElem?_getD]
  rcases hk : c.squares[(row * c.n + col).toNat]? with - | x
  · simp only [Option.getD_none]
    intro hcon
    exact absurd hcon (by norm_num [default])
  · have hm : x ∈ c.squares := by
      obtain ⟨hlt, hget⟩ := List.getElem?_eq_some_iff.mp hk
      exact hget ▸ List.getElem_mem hlt
    simpa using hrows x hm

/-- C7: a serve call never returns the sentinel square; a serve call with
the trap not armed ignores the error draws entirely and (when some square
is closer to the defender than the 1e9 initialization) returns the square
nearest the defender; and a sentinel result can arise only on the
error-injection path of a non-serve call whose perturbed neighbor falls
outside the grid. -/
theorem sentinel_only_from_error (s : Strategy) (a b : Player) (c : Court)
    (err : ℝ) (dir : Fin 4)
    (hc : c.squares ≠ []) (hrows : ∀ sq ∈ c.squares, sq.row ≠ -1) :
    ((s.chooseSquare a b c err dir true).1.row ≠ -1)
    ∧ (¬ (s.trapMode && s.hasLastTarget) = true →
        (∀ (err2 : ℝ) (dir2 : Fin 4),
          (s.chooseSquare a b c err dir true).1 = (s.chooseSquare a b c err2 dir2 true).1)
        ∧ ((∃ sq ∈ c.squares, distTo b.pos sq < 1000000000) →
            (s.chooseSquare a b c err dir true).1 ∈ c.squares
            ∧ ∀ sq ∈ c.squares,
                distTo b.pos ((s.chooseSquare a b c err dir true).1) ≤ distTo b.pos sq))
    ∧ ∀ serve : Bool,
        (s.chooseSquare a b c err dir serve).1.row = -1 →
        serve = false ∧ err < s.errorProb
        ∧ ¬ (0 ≤ (heuristicChoice a b c).row + dRow dir
              ∧ (heuristicChoice a b c).row + dRow dir < (s.n : ℤ)
              ∧ 0 ≤ (heuristicChoice a b c).col + dCol dir
              ∧ (heuristicChoice a b c).col + dCol dir < (s.n : ℤ)) := by
  refine ⟨?_, ?_, ?_⟩
  · by_cases htrap : (s.trapMode && s.hasLastTarget) = true
    · rw [chooseSquare_trap_eq s a b c err dir true htrap]
      exact hrows _ (trapSquare_mem s.lastServeTarget c hc)
    · rw [chooseSquare_serve_eq s a b c err dir htrap]
      exact hrows _ (serveSquare_mem a b c hc)
  · intro htrap
    constructor
    · intro err2 dir2
      rw [chooseSquare_serve_eq s a b c err dir htrap,
        chooseSquare_serve_eq s a b c err2 dir2 htrap]
    · intro hex
      rw [chooseSquare_serve_eq s a b c err dir htrap]
      obtain ⟨hmem, hmin, _⟩ :=
        pickMin_argmin (distTo b.pos) c.squares 1000000000 (heuristicChoice a b c) hex
      exact ⟨hmem, hmin⟩
  · intro serve hrow
    by_cases htrap : (s.trapMode && s.hasLastTarget) = true
    · rw [chooseSquare_trap_eq s a b c err dir serve htrap] at hrow
      exact absurd hrow (hrows _ (trapSquare_mem s.lastServeTarget c hc))
    · cases serve with
      | true =>
        rw [chooseSquare_serve_eq s a b c err dir htrap] at hrow
        exact absurd hrow (hrows _ (serveSquare_mem a b c hc))
      | false =>
        by_cases herr : err < s.errorProb
        · rw [chooseSquare_err_eq s a b c err dir htrap herr] at hrow
          by_cases hgrid : 0 ≤ (heuristicChoice a b c).row + dRow dir
              ∧ (heuristicChoice a b c).row + dRow dir < (s.n : ℤ)
              ∧ 0 ≤ (heuristicChoice a b c).col + dCol dir
              ∧ (heuristicChoice a b c).col + dCol dir < (s.n : ℤ)
          · rw [if_pos hgrid] at hrow
            exact absurd hrow (getSquare_row_ne c _ _ hrows)
          · exact ⟨rfl, herr, hgrid⟩
        · rw [chooseSquare_noerr_eq s a b c err dir htrap herr] at hrow
          exact absurd hrow (hrows _ (heuristicChoice_mem a b c hc))

theorem sentinel_only_from_error_witness :
    ((Strategy.init 1).chooseSquare ⟨⟨10, 0⟩, 1, 1⟩ ⟨⟨10, 10⟩, 2, 3⟩ (Court.make 20 10 1)
        1 0 true).1.row ≠ -1 :=
  (sentinel_only_from_error (Strategy.init 1) ⟨⟨10, 0⟩, 1, 1⟩ ⟨⟨10, 10⟩, 2, 3⟩
    (Court.make 20 10 1) 1 0 (courtMake_squares_ne_nil 20 10 (by norm_num))
    (fun sq hsq => by
      rw [show (Court.make 20 10 1).squares = generateSquares 20 10 1 from rfl,
        mem_generateSquares] at hsq
      obtain ⟨i, hi, j, hj, rfl⟩ := hsq
      simp)).1

/-- C8: for positive court dimensions and resolution n ≥ 1, the generated
grid has exactly n² cells; the cell at address (i, j) has center
((i+0.5)·w/n, (j+0.5)·h/n) and side length w/n; and every center lies
strictly inside the court rectangle. -/
theorem court_generation_spec (w h : ℝ) (n : ℕ)
    (hw : 0 < w) (hh : 0 < h) (hn : 1 ≤ n) :
    ((Court.make w h n).squares.length = n * n)
    ∧ (∀ sq ∈ (Court.make w h n).squares,
        sq.size = w / n
        ∧ sq.center.x = ((sq.row : ℝ) + 0.5) * (w / n)
        ∧ sq.center.y = ((sq.col : ℝ) + 0.5) * (h / n)
        ∧ 0 < sq.center.x ∧ sq.center.x < w
        ∧ 0 < sq.center.y ∧ sq.center.y < h)
    ∧ ∀ i j : ℕ, i < n → j < n →
        ∃ sq ∈ (Court.make w h n).squares,
          sq.row = (i : ℤ) ∧ sq.col = (j : ℤ)
          ∧ sq.center.x = ((i : ℝ) + 0.5) * (w / n)
          ∧ sq.center.y = ((j : ℝ) + 0.5) * (h / n)
          ∧ sq.size = w / n := by
  have hnR : (0 : ℝ) < (n : ℝ) := by exact_mod_cast (by omega : 0 < n)
  have hne : (n : ℝ) ≠ 0 := ne_of_gt hnR
  have hwd : (n : ℝ) * (w / n) = w := by field_simp
  have hhd : (n : ℝ) * (h / n) = h := by field_simp
  have hwn : 0 < w / n := div_pos hw hnR
  have hhn : 0 < h / n := div_pos hh hnR
  refine ⟨generateSquares_length w h n, ?_, ?_⟩
  · intro sq hsq
    rw [show (Court.make w h n).squares = generateSquares w h n from rfl,
      mem_generateSquares] at hsq
    obtain ⟨i, hi, j, hj, rfl⟩ := hsq
    have hiR : (i : ℝ) + 1 ≤ (n : ℝ) := by exact_mod_cast Nat.succ_le_of_lt hi
    have hjR : (j : ℝ) + 1 ≤ (n : ℝ) := by exact_mod_cast Nat.succ_le_of_lt hj
    have hi0 : (0 : ℝ) ≤ (i : ℝ) := Nat.cast_nonneg i
    have hj0 : (0 : ℝ) ≤ (j : ℝ) := Nat.cast_nonneg j
    refine ⟨rfl, by push_cast; ring, by push_cast; ring, ?_, ?_, ?_, ?_⟩
    · exact mul_pos (by linarith) hwn
    · calc ((i : ℝ) + 0.5) * (w / n) < (n : ℝ) * (w / n) :=
            mul_lt_mul_of_pos_right (by norm_num at hiR ⊢; linarith) hwn
        _ = w := hwd
    · exact mul_pos (by linarith) hhn
    · calc ((j : ℝ) + 0.5) * (h / n) < (n : ℝ) * (h / n) :=
            mul_lt_mul_of_pos_right (by norm_num at hjR ⊢; linarith) hhn
        _ = h := hhd
  · intro i j hi hj
    refine ⟨⟨⟨((i : ℝ) + 0.5) * (w / n), ((j : ℝ) + 0.5) * (h / n)⟩,
      w / n, (i : ℤ), (j : ℤ)⟩, ?_, rfl, rfl, rfl, rfl, rfl⟩
    rw [show (Court.make w h n).squares = generateSquares w h n from rfl,
      mem_generateSquares]
    exact ⟨i, hi, j, hj, rfl⟩

theorem court_generation_spec_witness :
    (Court.make 20 10 1).squares.length = 1 * 1 :=
  (court_generation_spec 20 10 1 (by norm_num) (by norm_num) (by norm_num)).1

theorem moveTo_snap (pl : Player) (t : Position)
    (h : hypot (t.x - pl.pos.x) (t.y - pl.pos.y) ≤ pl.l) :
    pl.moveTo t = { pl with pos := t } := by
  simp only [Player.moveTo]
  rw [if_pos h]

theorem moveTo_advance (pl : Player) (t : Position)
    (h : ¬ hypot (t.x - pl.pos.x) (t.y - pl.pos.y) ≤ pl.l) :
    pl.moveTo t
      = { pl with
          pos := ⟨pl.pos.x + (t.x - pl.pos.x) / hypot (t.x - pl.pos.x) (t.y - pl.pos.y) * pl.l,
                  pl.pos.y + (t.y - pl.pos.y) / hypot (t.x - pl.pos.x) (t.y - pl.pos.y) * pl.l⟩ } := by
  simp only [Player.moveTo]
  rw [if_neg h]

theorem pdist_moveTo (pl : Player) (t : Position) (hl : 0 ≤ pl.l) :
    pdist (pl.moveTo t).pos t = pdist pl.pos t - min (pdist pl.pos t) pl.l := by
  unfold pdist
  by_cases h : hypot (t.x - pl.pos.x) (t.y - pl.pos.y) ≤ pl.l
  · rw [moveTo_snap pl t h, min_eq_left h]
    simp [hypot]
  · rw [moveTo_advance pl t h]
    dsimp only
    have hld : pl.l < hypot (t.x - pl.pos.x) (t.y - pl.pos.y) := not_le.mp h
    have hd0 : 0 < hypot (t.x - pl.pos.x) (t.y - pl.pos.y) := lt_of_le_of_lt hl hld
    have hdne : hypot (t.x - pl.pos.x) (t.y - pl.pos.y) ≠ 0 := ne_of_gt hd0
    have hc : (0 : ℝ)
        ≤ (hypot (t.x - pl.pos.x) (t.y - pl.pos.y) - pl.l)
          / hypot (t.x - pl.pos.x) (t.y - pl.pos.y) :=
      div_nonneg (by linarith) (le_of_lt hd0)
    have hx : t.x - (pl.pos.x + (t.x - pl.pos.x) / hypot (t.x - pl.pos.x) (t.y - pl.pos.y) * pl.l)
        = (hypot (t.x - pl.pos.x) (t.y - pl.pos.y) - pl.l)
          / hypot (t.x - pl.pos.x) (t.y - pl.pos.y) * (t.x - pl.pos.x) := by
      field_simp
      ring
    have hy : t.y - (pl.pos.y + (t.y - pl.pos.y) / hypot (t.x - pl.pos.x) (t.y - pl.pos.y) * pl.l)
        = (hypot (t.x - pl.pos.x) (t.y - pl.pos.y) - pl.l)
          / hypot (t.x - pl.pos.x) (t.y - pl.pos.y) * (t.y - pl.pos.y) := by
      field_simp
      ring
    rw [hx, hy, hypot_smul _ _ _ hc, min_eq_right (le_of_lt hld)]
    field_simp

/-- C2 (amended): for nonnegative speed, `moveTo` leaves the player at
distance d − min(d, l) from the target, where d is the original distance:
when d ≤ l the position becomes exactly the target, and otherwise the
player advances exactly l units along the straight line toward the target
(ending at distance d − l). -/
theorem moveTo_distance (pl : Player) (t : Position) (hl : 0 ≤ pl.l) :
    pdist (pl.moveTo t).pos t = pdist pl.pos t - min (pdist pl.pos t) pl.l
    ∧ (pdist pl.pos t ≤ pl.l → (pl.moveTo t).pos = t)
    ∧ (pl.l < pdist pl.pos t →
        (pl.moveTo t).pos
          = ⟨pl.pos.x + (t.x - pl.pos.x) / pdist pl.pos t * pl.l,
             pl.pos.y + (t.y - pl.pos.y) / pdist pl.pos t * pl.l⟩
        ∧ pdist (pl.moveTo t).pos t = pdist pl.pos t - pl.l) := by
  refine ⟨pdist_moveTo pl t hl, ?_, ?_⟩
  · intro h
    rw [moveTo_snap pl t h]
  · intro h
    have hns : ¬ hypot (t.x - pl.pos.x) (t.y - pl.pos.y) ≤ pl.l := not_le.mpr h
    refine ⟨by rw [moveTo_advance pl t hns]; rfl, ?_⟩
    rw [pdist_moveTo pl t hl, min_eq_right (le_of_lt h)]

theorem moveTo_distance_witness :
    pdist ((Player.mk ⟨0, 0⟩ 1 5).moveTo ⟨3, 0⟩).pos ⟨3, 0⟩
      = pdist (Player.mk ⟨0, 0⟩ 1 5).pos ⟨3, 0⟩
        - min (pdist (Player.mk ⟨0, 0⟩ 1 5).pos ⟨3, 0⟩) (Player.mk ⟨0, 0⟩ 1 5).l :=
  (moveTo_distance (Player.mk ⟨0, 0⟩ 1 5) ⟨3, 0⟩ (by norm_num)).1

/-- C2 counterexample: the player at (0, 0) with speed 5 aimed at (3, 0)
has original distance d = 3 ≤ 5, so the move snaps onto the target and the
resulting distance to the target is 0, not min(d, l) = 3. -/
theorem moveTo_min_claim_false :
    ¬ pdist ((Player.mk ⟨0, 0⟩ 1 5).moveTo ⟨3, 0⟩).pos ⟨3, 0⟩
        = min (pdist (Player.mk ⟨0, 0⟩ 1 5).pos ⟨3, 0⟩) (Player.mk ⟨0, 0⟩ 1 5).l := by
  have hd : pdist (Player.mk ⟨0, 0⟩ 1 5).pos ⟨3, 0⟩ = 3 := by
    show hypot ((3 : ℝ) - 0) ((0 : ℝ) - 0) = 3
    rw [show ((3 : ℝ) - 0) = 3 by norm_num, show ((0 : ℝ) - 0) = 0 by norm_num,
      hypot_abs_left]
    norm_num
  have hle : hypot ((3 : ℝ) - 0) ((0 : ℝ) - 0) ≤ (5 : ℝ) := by
    rw [show ((3 : ℝ) - 0) = 3 by norm_num, show ((0 : ℝ) - 0) = 0 by norm_num,
      hypot_abs_left]
    norm_num
  have hsnap : (Player.mk ⟨0, 0⟩ 1 5).moveTo ⟨3, 0⟩
      = { Player.mk ⟨0, 0⟩ 1 5 with pos := ⟨3, 0⟩ } := moveTo_snap _ _ hle
  rw [hsnap, hd]
  have h0 : pdist (⟨3, 0⟩ : Position) ⟨3, 0⟩ = 0 := by
    simp [pdist, hypot]
  dsimp only
  rw [h0, min_eq_left (by norm_num : (3 : ℝ) ≤ 5)]
  norm_num

/-- C3 counterexample: in the standard match the defending bot starts on
the baseline y = 10, which lies in the upper half y ≥ height/2 = 5 of the
20 × 10 court, but the valid return draw (u, v) = (0, 0) produces the
return target (0, 0), outside that half: the return target is not drawn
from the defender's own half. -/
theorem return_not_from_defender_half :
    (MatchState.make 1 1 2 3 2).bot.pos.y = 10
    ∧ (MatchState.make 1 1 2 3 2).court.height / 2 ≤ (MatchState.make 1 1 2 3 2).bot.pos.y
    ∧ (0 : ℝ) ≤ 0 ∧ (0 : ℝ) ≤ 1
    ∧ ¬ ((MatchState.make 1 1 2 3 2).court.height / 2
          ≤ (returnBallSample (MatchState.make 1 1 2 3 2).court 0 0).y) := by
  refine ⟨rfl, by norm_num [MatchState.make, Court.make], le_refl 0, zero_le_one, ?_⟩
  norm_num [MatchState.make, Court.make, returnBallSample]

/-- C3 (amended): the defender's return target is drawn uniformly at
random from the rectangle [0, width] × [0, height/2] — the half of the
court adjoining the attacker's baseline, opposite the defender — and
independently of the Strategy: the sampling map sends the unit square of
the two generator draws into that rectangle and onto it. -/
theorem return_uniform_on_attacker_half (c : Court) (hw : 0 < c.width) (hh : 0 < c.height) :
    (∀ u v : ℝ, 0 ≤ u → u ≤ 1 → 0 ≤ v → v ≤ 1 →
      0 ≤ (returnBallSample c u v).x ∧ (returnBallSample c u v).x ≤ c.width
      ∧ 0 ≤ (returnBallSample c u v).y ∧ (returnBallSample c u v).y ≤ c.height / 2)
    ∧ ∀ p : Position, 0 ≤ p.x → p.x ≤ c.width → 0 ≤ p.y → p.y ≤ c.height / 2 →
        ∃ u v : ℝ, 0 ≤ u ∧ u ≤ 1 ∧ 0 ≤ v ∧ v ≤ 1 ∧ returnBallSample c u v = p := by
  have hh2 : 0 < c.height / 2 := by linarith
  constructor
  · intro u v hu0 hu1 hv0 hv1
    refine ⟨mul_nonneg hu0 (le_of_lt hw), ?_, mul_nonneg hv0 (le_of_lt hh2), ?_⟩
    · calc u * c.width ≤ 1 * c.width := mul_le_mul_of_nonneg_right hu1 (le_of_lt hw)
        _ = c.width := one_mul _
    · calc v * (c.height / 2) ≤ 1 * (c.height / 2) :=
            mul_le_mul_of_nonneg_right hv1 (le_of_lt hh2)
        _ = c.height / 2 := one_mul _
  · intro p hx0 hx1 hy0 hy1
    refine ⟨p.x / c.width, p.y / (c.height / 2),
      div_nonneg hx0 (le_of_lt hw), (div_le_one hw).mpr hx1,
      div_nonneg hy0 (le_of_lt hh2), (div_le_one hh2).mpr hy1, ?_⟩
    unfold returnBallSample
    ext
    · exact div_mul_cancel₀ p.x (ne_of_gt hw)
    · exact div_mul_cancel₀ p.y (ne_of_gt hh2)

theorem return_uniform_on_attacker_half_witness :
    0 ≤ (returnBallSample (Court.make 20 10 1) 0 0).x
    ∧ (returnBallSample (Court.make 20 10 1) 0 0).x ≤ (Court.make 20 10 1).width
    ∧ 0 ≤ (returnBallSample (Court.make 20 10 1) 0 0).y
    ∧ (returnBallSample (Court.make 20 10 1) 0 0).y ≤ (Court.make 20 10 1).height / 2 :=
  (return_uniform_on_attacker_half (Court.make 20 10 1) (by norm_num [Court.make])
    (by norm_num [Court.make])).1 0 0 (le_refl 0) zero_le_one (le_refl 0) zero_le_one

theorem playGameAux_spec :
    ∀ (outs : List Bool) (a b : ℤ) (w : Bool) (a1 b1 : ℤ),
      ¬ winA a b → ¬ winB a b →
      playGameAux outs a b = some (w, a1, b1) →
      ∃ k, k < outs.length
        ∧ a1 = a + ((outs.take (k + 1)).count true : ℤ)
        ∧ b1 = b + ((outs.take (k + 1)).count false : ℤ)
        ∧ (w = true → winA a1 b1)
        ∧ (w = false → ¬ winA a1 b1 ∧ winB a1 b1)
        ∧ ∀ j, j ≤ k →
            ¬ winA (a + ((outs.take j).count true : ℤ)) (b + ((outs.take j).count false : ℤ))
            ∧ ¬ winB (a + ((outs.take j).count true : ℤ)) (b + ((outs.take j).count false : ℤ)) := by
  intro outs
  induction outs with
  | nil =>
    intro a b w a1 b1 _ _ hrun
    simp [playGameAux] at hrun
  | cons o rest ih =>
    intro a b w a1 b1 hnA hnB hrun
    cases o with
    | false =>
      have hrun2 : (if winA a (b + 1) then some (true, a, b + 1)
          else if winB a (b + 1) then some (false, a, b + 1)
          else playGameAux rest a (b + 1)) = some (w, a1, b1) := hrun
      by_cases hwA : winA a (b + 1)
      · rw [if_pos hwA] at hrun2
        simp only [Option.some.injEq, Prod.mk.injEq] at hrun2
        obtain ⟨hw, ha, hb⟩ := hrun2
        subst hw; subst ha; subst hb
        refine ⟨0, by simp, by simp, by simp [List.count_cons], ?_, ?_, ?_⟩
        · intro _
          exact hwA
        · intro hf
          simp at hf
        · intro j hj
          have hj0 : j = 0 := Nat.le_zero.mp hj
          subst hj0
          simpa using ⟨hnA, hnB⟩
      · rw [if_neg hwA] at hrun2
        by_cases hwB : winB a (b + 1)
        · rw [if_pos hwB] at hrun2
          simp only [Option.some.injEq, Prod.mk.injEq] at hrun2
          obtain ⟨hw, ha, hb⟩ := hrun2
          subst hw; subst ha; subst hb
          refine ⟨0, by simp, by simp, by simp [List.count_cons], ?_, ?_, ?_⟩
          · intro ht
            simp at ht
          · intro _
            exact ⟨hwA, hwB⟩
          · intro j hj
            have hj0 : j = 0 := Nat.le_zero.mp hj
            subst hj0
            simpa using ⟨hnA, hnB⟩
        · rw [if_neg hwB] at hrun2
          obtain ⟨k, hk, ha, hb, hwt, hwf, hjs⟩ :=
            ih a (b + 1) w a1 b1 hwA hwB hrun2
          refine ⟨k + 1, by simpa using Nat.succ_lt_succ hk, ?_, ?_, hwt, hwf, ?_⟩
          · have e1 : ((((false :: rest).take (k + 1 + 1)).count true : ℕ) : ℤ)
                = (((rest.take (k + 1)).count true : ℕ) : ℤ) := by
              simp [List.count_cons]
            rw [e1]
            exact ha
          · have e2 : ((((false :: rest).take (k + 1 + 1)).count false : ℕ) : ℤ)
                = (((rest.take (k + 1)).count false : ℕ) : ℤ) + 1 := by
              simp [List.count_cons]
            rw [e2, hb]
            ring
          · intro j hj
            cases j with
            | zero => simpa using ⟨hnA, hnB⟩
            | succ j2 =>
              have hj2 : j2 ≤ k := Nat.succ_le_succ_iff.mp hj
              have hh := hjs j2 hj2
              have f1 : a + ((((false :: rest).take (j2 + 1)).count true : ℕ) : ℤ)
                  = a + (((rest.take j2).count true : ℕ) : ℤ) := by
                simp [List.count_cons]
              have f2 : b + ((((false :: rest).take (j2 + 1)).count false : ℕ) : ℤ)
                  = (b + 1) + (((rest.take j2).count false : ℕ) : ℤ) := by
                simp [List.count_cons]
                ring
              rw [f1, f2]
              exact hh
    | true =>
      have hrun2 : (if winA (a + 1) b then some (true, a + 1, b)
          else if winB (a + 1) b then some (false, a + 1, b)
          else playGameAux rest (a + 1) b) = some (w, a1, b1) := hrun
      by_cases hwA : winA (a + 1) b
      · rw [if_pos hwA] at hrun2
        simp only [Option.some.injEq, Prod.mk.injEq] at hrun2
        obtain ⟨hw, ha, hb⟩ := hrun2
        subst hw; subst ha; subst hb
        refine ⟨0, by simp, by simp [List.count_cons], by simp, ?_, ?_, ?_⟩
        · intro _
          exact hwA
        · intro hf
          simp at hf
        · intro j hj
          have hj0 : j = 0 := Nat.le_zero.mp hj
          subst hj0
          simpa using ⟨hnA, hnB⟩
      · rw [if_neg hwA] at hrun2
        by_cases hwB : winB (a + 1) b
        · rw [if_pos hwB] at hrun2
          simp only [Option.some.injEq, Prod.mk.injEq] at hrun2
          obtain ⟨hw, ha, hb⟩ := hrun2
          subst hw; subst ha; subst hb
          refine ⟨0, by simp, by simp [List.count_cons], by simp, ?_, ?_, ?_⟩
          · intro ht
            simp at ht
          · intro _
            exact ⟨hwA, hwB⟩
          · intro j hj
            have hj0 : j = 0 := Nat.le_zero.mp hj
            subst hj0
            simpa using ⟨hnA, hnB⟩
        · rw [if_neg hwB] at hrun2
          obtain ⟨k, hk, ha, hb, hwt, hwf, hjs⟩ :=
            ih (a + 1) b w a1 b1 hwA hwB hrun2
          refine ⟨k + 1, by simpa using Nat.succ_lt_succ hk, ?_, ?_, hwt, hwf, ?_⟩
          · have e1 : ((((true :: rest).take (k + 1 + 1)).count true : ℕ) : ℤ)
                = (((rest.take (k + 1)).count true : ℕ) : ℤ) + 1 := by
              simp [List.count_cons]
            rw [e1, ha]
            ring
          · have e2 : ((((true :: rest).take (k + 1 + 1)).count false : ℕ) : ℤ)
                = (((rest.take (k + 1)).count false : ℕ) : ℤ) := by
              simp [List.count_cons]
            rw [e2]
            exact hb
          · intro j hj
            cases j with
            | zero => simpa using ⟨hnA, hnB⟩
            | succ j2 =>
              have hj2 : j2 ≤ k := Nat.succ_le_succ_iff.mp hj
              have hh := hjs j2 hj2
              have f1 : a + ((((true :: rest).take (j2 + 1)).count true : ℕ) : ℤ)
                  = (a + 1) + (((rest.take j2).count true : ℕ) : ℤ) := by
                simp [List.count_cons]
                ring
              have f2 : b + ((((true :: rest).take (j2 + 1)).count false : ℕ) : ℤ)
                  = b + (((rest.take j2).count false : ℕ) : ℤ) := by
                simp [List.count_cons]
              rw [f1, f2]
              exact hh

/-- C6: the scoring loop of `playGame` awards the game exactly when one
side's points reach ≥ 4 with a lead ≥ 2: at termination the returned
winner satisfies the condition at the final score, no earlier reachable
score satisfies either side's condition, and concretely a 4–3 score
continues play while 5–3 and 4–0 end the game. -/
theorem game_win_rule :
    (∀ (outs : List Bool) (w : Bool) (a1 b1 : ℤ),
      playGame outs = some (w, a1, b1) →
      ∃ k, k < outs.length
        ∧ a1 = ((outs.take (k + 1)).count true : ℤ)
        ∧ b1 = ((outs.take (k + 1)).count false : ℤ)
        ∧ (w = true → winA a1 b1)
        ∧ (w = false → ¬ winA a1 b1 ∧ winB a1 b1)
        ∧ ∀ j, j ≤ k →
            ¬ winA (((outs.take j).count true : ℕ) : ℤ) (((outs.take j).count false : ℕ) : ℤ)
            ∧ ¬ winB (((outs.take j).count true : ℕ) : ℤ) (((outs.take j).count false : ℕ) : ℤ))
    ∧ ¬ winA 4 3 ∧ ¬ winB 4 3 ∧ winA 5 3 ∧ winA 4 0
    ∧ playGame [true, true, true, true] = some (true, 4, 0)
    ∧ playGame [true, true, true, false, false, false, true] = none
    ∧ playGame [true, true, true, false, false, false, true, true] = some (true, 5, 3) := by
  refine ⟨?_, by decide, by decide, by decide, by decide, by decide, by decide, by decide⟩
  intro outs w a1 b1 hrun
  obtain ⟨k, hk, ha, hb, hwt, hwf, hjs⟩ :=
    playGameAux_spec outs 0 0 w a1 b1 (by decide) (by decide) hrun
  refine ⟨k, hk, by simpa using ha, by simpa using hb, hwt, hwf, ?_⟩
  intro j hj
  have := hjs j hj
  simpa using this

theorem game_win_rule_witness :
    ∃ k, k < [true, true, true, true].length
      ∧ (4 : ℤ) = (([true, true, true, true].take (k + 1)).count true : ℤ)
      ∧ (0 : ℤ) = (([true, true, true, true].take (k + 1)).count false : ℤ)
      ∧ (true = true → winA 4 0)
      ∧ (true = false → ¬ winA 4 0 ∧ winB 4 0)
      ∧ ∀ j, j ≤ k →
          ¬ winA (([true, true, true, true].take j).count true : ℕ)
              (([true, true, true, true].take j).count false : ℕ)
          ∧ ¬ winB (([true, true, true, true].take j).count true : ℕ)
              (([true, true, true, true].take j).count false : ℕ) :=
  game_win_rule.1 [true, true, true, true] true 4 0 (by decide)

theorem returnBallSample_not_out (c : Court) (u v : ℝ)
    (hw : 0 ≤ c.width) (hh : 0 ≤ c.height)
    (hu0 : 0 ≤ u) (hu1 : u ≤ 1) (hv0 : 0 ≤ v) (hv1 : v ≤ 1) :
    ¬ c.isOut (returnBallSample c u v) := by
  intro hout
  unfold Court.isOut returnBallSample at hout
  have h1 : 0 ≤ u * c.width := mul_nonneg hu0 hw
  have h2 : u * c.width ≤ c.width := by
    calc u * c.width ≤ 1 * c.width := mul_le_mul_of_nonneg_right hu1 hw
      _ = c.width := one_mul _
  have h3 : 0 ≤ v * (c.height / 2) := mul_nonneg hv0 (by linarith)
  have h4 : v * (c.height / 2) ≤ c.height := by
    calc v * (c.height / 2) ≤ 1 * (c.height / 2) :=
          mul_le_mul_of_nonneg_right hv1 (by linarith)
      _ = c.height / 2 := one_mul _
      _ ≤ c.height := by linarith
  rcases hout with h | h | h | h <;> dsimp only at h <;> linarith

theorem simulatePoint_eq_noRetOut (fuel : ℕ) :
    ∀ (draws : ℕ → Draws) (st : MatchState) (serve : Bool),
      0 ≤ st.court.width → 0 ≤ st.court.height → (∀ k, (draws k).validRet) →
      simulatePoint draws fuel st serve = simulatePointNoRetOut draws fuel st serve := by
  induction fuel with
  | zero => intro draws st serve _ _ _; rfl
  | succ n ih =>
    intro draws st serve hw hh hvalid
    rw [simulatePoint, simulatePointNoRetOut]
    dsimp only
    have hno : ¬ st.court.isOut (returnBallSample st.court (draws 0).retU (draws 0).retV) :=
      returnBallSample_not_out st.court (draws 0).retU (draws 0).retV
        hw hh (hvalid 0).1 (hvalid 0).2.1 (hvalid 0).2.2.1 (hvalid 0).2.2.2
    by_cases hc1 : (st.strategy.chooseSquare st.agent st.bot st.court
        (draws 0).err (draws 0).dir serve).1.row = -1
    · simp only [if_pos hc1]
    · simp only [if_neg hc1]
      by_cases hc2 : st.court.isOut
          ⟨(st.strategy.chooseSquare st.agent st.bot st.court
              (draws 0).err (draws 0).dir serve).1.center.x + (draws 0).noiseX,
           (st.strategy.chooseSquare st.agent st.bot st.court
              (draws 0).err (draws 0).dir serve).1.center.y + (draws 0).noiseY⟩
      · simp only [if_pos hc2]
      · simp only [if_neg hc2]
        by_cases hc3 : (st.bot.moveTo
            ⟨(st.strategy.chooseSquare st.agent st.bot st.court
                (draws 0).err (draws 0).dir serve).1.center.x + (draws 0).noiseX,
             (st.strategy.chooseSquare st.agent st.bot st.court
                (draws 0).err (draws 0).dir serve).1.center.y + (draws 0).noiseY⟩).canHit
            ⟨(st.strategy.chooseSquare st.agent st.bot st.court
                (draws 0).err (draws 0).dir serve).1.center.x + (draws 0).noiseX,
             (st.strategy.chooseSquare st.agent st.bot st.court
                (draws 0).err (draws 0).dir serve).1.center.y + (draws 0).noiseY⟩
        · simp only [if_neg (not_not_intro hc3), if_neg hno]
          by_cases hc5 : (st.agent.moveTo
              (returnBallSample st.court (draws 0).retU (draws 0).retV)).canHit
              (returnBallSample st.court (draws 0).retU (draws 0).retV)
          · simp only [if_neg (not_not_intro hc5)]
            exact ih (fun k => draws (k + 1)) _ false hw hh (fun k => hvalid (k + 1))
          · simp only [if_pos hc5]
        · simp only [if_pos hc3]

theorem simulatePoint_true_miss (fuel : ℕ) :
    ∀ (draws : ℕ → Draws) (st : MatchState) (serve : Bool) (stw : MatchState),
      0 ≤ st.court.width → 0 ≤ st.court.height → (∀ k, (draws k).validRet) →
      simulatePoint draws fuel st serve = some (true, stw) →
      ∃ ball : Position, ¬ stw.bot.canHit ball := by
  induction fuel with
  | zero =>
    intro draws st serve stw _ _ _ hrun
    simp [simulatePoint] at hrun
  | succ n ih =>
    intro draws st serve stw hw hh hvalid hrun
    rw [simulatePoint] at hrun
    dsimp only at hrun
    have hno : ¬ st.court.isOut (returnBallSample st.court (draws 0).retU (draws 0).retV) :=
      returnBallSample_not_out st.court (draws 0).retU (draws 0).retV
        hw hh (hvalid 0).1 (hvalid 0).2.1 (hvalid 0).2.2.1 (hvalid 0).2.2.2
    by_cases hc1 : (st.strategy.chooseSquare st.agent st.bot st.court
        (draws 0).err (draws 0).dir serve).1.row = -1
    · simp only [if_pos hc1] at hrun
      exact absurd hrun (by simp)
    · simp only [if_neg hc1] at hrun
      by_cases hc2 : st.court.isOut
          ⟨(st.strategy.chooseSquare st.agent st.bot st.court
              (draws 0).err (draws 0).dir serve).1.center.x + (draws 0).noiseX,
           (st.strategy.chooseSquare st.agent st.bot st.court
              (draws 0).err (draws 0).dir serve).1.center.y + (draws 0).noiseY⟩
      · simp only [if_pos hc2] at hrun
        exact absurd hrun (by simp)
      · simp only [if_neg hc2] at hrun
        by_cases hc3 : (st.bot.moveTo
            ⟨(st.strategy.chooseSquare st.agent st.bot st.court
                (draws 0).err (draws 0).dir serve).1.center.x + (draws 0).noiseX,
             (st.strategy.chooseSquare st.agent st.bot st.court
                (draws 0).err (draws 0).dir serve).1.center.y + (draws 0).noiseY⟩).canHit
            ⟨(st.strategy.chooseSquare st.agent st.bot st.court
                (draws 0).err (draws 0).dir serve).1.center.x + (draws 0).noiseX,
             (st.strategy.chooseSquare st.agent st.bot st.court
                (draws 0).err (draws 0).dir serve).1.center.y + (draws 0).noiseY⟩
        · simp only [if_neg (not_not_intro hc3), if_neg hno] at hrun
          by_cases hc5 : (st.agent.moveTo
              (returnBallSample st.court (draws 0).retU (draws 0).retV)).canHit
              (returnBallSample st.court (draws 0).retU (draws 0).retV)
          · simp only [if_neg (not_not_intro hc5)] at hrun
            refine ih (fun k => draws (k + 1)) _ false stw ?_ ?_ (fun k => hvalid (k + 1)) hrun
            · exact hw
            · exact hh
          · simp only [if_pos hc5] at hrun
            exact absurd hrun (by simp)
        · simp only [if_pos hc3] at hrun
          simp only [Option.some.injEq, Prod.mk.injEq] at hrun
          obtain ⟨-, hst⟩ := hrun
          rw [← hst]
          exact ⟨_, hc3⟩

/-- C10: every valid return draw lands in [0, width] × [0, height/2],
where `isOut` is false, so the rally-engine branch awarding the point to
the attacker because the defender's return landed out of bounds is
unreachable — deleting it leaves the engine unchanged — and the attacker
can win a point only through the defender failing to reach a ball. -/
theorem return_out_branch_unreachable :
    (∀ (c : Court) (u v : ℝ), 0 ≤ c.width → 0 ≤ c.height →
      0 ≤ u → u ≤ 1 → 0 ≤ v → v ≤ 1 → ¬ c.isOut (returnBallSample c u v))
    ∧ (∀ (draws : ℕ → Draws) (fuel : ℕ) (st : MatchState) (serve : Bool),
        0 ≤ st.court.width → 0 ≤ st.court.height → (∀ k, (draws k).validRet) →
        simulatePoint draws fuel st serve = simulatePointNoRetOut draws fuel st serve)
    ∧ (∀ (draws : ℕ → Draws) (fuel : ℕ) (st : MatchState) (serve : Bool) (stw : MatchState),
        0 ≤ st.court.width → 0 ≤ st.court.height → (∀ k, (draws k).validRet) →
        simulatePoint draws fuel st serve = some (true, stw) →
        ∃ ball : Position, ¬ stw.bot.canHit ball) := by
  refine ⟨?_, ?_, ?_⟩
  · intro c u v hw hh hu0 hu1 hv0 hv1
    exact returnBallSample_not_out c u v hw hh hu0 hu1 hv0 hv1
  · intro draws fuel st serve hw hh hvalid
    exact simulatePoint_eq_noRetOut fuel draws st serve hw hh hvalid
  · intro draws fuel st serve stw hw hh hvalid hrun
    exact simulatePoint_true_miss fuel draws st serve stw hw hh hvalid hrun

theorem return_out_branch_unreachable_witness :
    ¬ (Court.make 20 10 1).isOut (returnBallSample (Court.make 20 10 1) 0 0) :=
  return_out_branch_unreachable.1 (Court.make 20 10 1) 0 0
    (by norm_num [Court.make]) (by norm_num [Court.make])
    (le_refl 0) zero_le_one (le_refl 0) zero_le_one

end Lab3
